import Mathlib

/-!
# Verification of the `keystone` macro library (Noxmore/nil, src/src/lib.rs)

The repository is a Rust convenience library whose only substantial facility
is the `serde_defaulted_struct!` macro (src/src/lib.rs lines 64-104): given a
declarative field listing, it expands to

* a struct declaration whose derive list is `Serialize, Deserialize` (first
  arm, line 68) or `Serialize, Deserialize` followed by the caller's extra
  derive identifiers (second arm, line 87);
* each field carrying a `#[serde(default = $default_path)]` attribute
  (lines 70 and 89);
* a defaults module with one zero-argument function per field returning that
  field's default expression (lines 73-75 and 92-94);
* an `impl Default` whose `default()` builds `Self` by splicing each field's
  default expression (lines 77-83 and 96-102).

We embed the expansion shallowly: a `Field` records one source-level field
descriptor, the two macro arms become functions from descriptors to a
`GeneratedCode` record holding exactly what the expansion emits, and a small
expression language with an explicit heap gives the spliced default
expressions a semantics in which allocation (an interior-mutable cell) is
observable, so that freshness and non-aliasing of repeated default
construction are real statements rather than vacuities of a pure embedding.

The `tr!` ternary macro (lines 19-27) is embedded as `tr` / `trChain`.
-/

namespace Keystone

/-! ## The `tr!` ternary macro (src/src/lib.rs lines 19-27)

Second arm, line 24-26: `tr!(c, a, b)` expands to `if c then a else b`.
First arm, line 21-22: `tr!(c1 => a1, ..., cn => an ; b)` expands to the
chain `if c1 then a1 else if c2 then a2 else ... else b`; `trChain` builds
that chain by recursion over the arm list. -/

def tr {α : Type} (condition : Bool) (a b : α) : α :=
  if condition then a else b

def trChain {α : Type} : List (Bool × α) → α → α
  | [], b => b
  | (c, a) :: rest, b => if c then a else trChain rest b

/-! ## Expression and value model

Rust default expressions are opaque to the macro; it splices the same
expression token-for-token into the defaults module and into the `Default`
impl.  We model the expressions appearing in the library's own doc examples
(integer and boolean literals, lines 39-40) plus one allocating expression,
`cellNew` (a `Cell`-like fresh interior-mutable integer cell), so that the
"evaluated fresh on each call, no aliasing" behaviour of splicing an
expression into a constructor body is visible in the semantics.  The heap is
a list of integer cells addressed by position; evaluation threads the heap
and `cellNew` appends a fresh cell. -/

inductive Ty where
  | i32
  | bool
  | cell
  deriving DecidableEq, Repr

inductive Value where
  | vInt (n : Int)
  | vBool (b : Bool)
  | vRef (a : Nat)
  deriving DecidableEq, Repr

inductive Expr where
  | intLit (n : Int)
  | boolLit (b : Bool)
  | cellNew (n : Int)
  deriving DecidableEq, Repr

/-- Evaluate an expression against a heap; `cellNew` allocates a fresh cell
at the end of the heap and returns a reference to it. -/
def evalExpr : Expr → List Int → Value × List Int
  | .intLit n, h => (.vInt n, h)
  | .boolLit b, h => (.vBool b, h)
  | .cellNew n, h => (.vRef h.length, h ++ [n])

/-- The observable content an expression's value denotes, independent of any
heap: a fresh cell's observable content is the integer stored in it. -/
def denote : Expr → Value
  | .intLit n => .vInt n
  | .boolLit b => .vBool b
  | .cellNew n => .vInt n

/-- The static type of each model expression. -/
def exprTy : Expr → Ty
  | .intLit _ => .i32
  | .boolLit _ => .bool
  | .cellNew _ => .cell

/-- Read a value back through the heap: references are dereferenced to the
cell's current content, plain values observe as themselves. -/
def observe (h : List Int) : Value → Value
  | .vRef a => .vInt (h.getD a 0)
  | .vInt n => .vInt n
  | .vBool b => .vBool b

/-- The cell addresses a value can reach. -/
def valueRefs : Value → List Nat
  | .vRef a => [a]
  | _ => []

/-- Mutate one heap cell (writing through a reference held by an instance). -/
def setCell (h : List Int) (a : Nat) (v : Int) : List Int :=
  h.set a v

/-! ## The macro input and its expansion (src/src/lib.rs lines 64-104)

A `Field` is one `$vis $name : $type => ($default => $default_path)` item of
the macro input.  `GeneratedCode` holds what the expansion emits: the derive
list, the struct declaration's field declarations (each with its
`#[serde(default = ...)]` path attribute), the defaults module's functions,
and the `Default` impl's field initializers. -/

structure Field where
  vis : String
  name : String
  ty : Ty
  default : Expr
  defaultPath : String
  deriving DecidableEq, Repr

structure FieldDecl where
  serdeDefault : String
  vis : String
  name : String
  ty : Ty
  deriving DecidableEq, Repr

structure GeneratedCode where
  derives : List String
  structVis : String
  structName : String
  fieldDecls : List FieldDecl
  defaultsVis : String
  defaultsName : String
  providers : List (String × Expr)
  defaultImpl : List (String × Expr)
  deriving DecidableEq, Repr

/-- First macro arm (lines 66-84): no extra derive list; the derive
attribute is exactly `::serde::Serialize, ::serde::Deserialize` (line 68);
the defaults module holds `pub fn $name() -> $type { $default }` per field
(lines 73-75); `Default::default` builds `Self { $name: $default, ... }`
(lines 77-83). -/
def serde_defaulted_struct (structVis structName defaultsVis defaultsName : String)
    (fields : List Field) : GeneratedCode :=
  { derives := ["Serialize", "Deserialize"]
  , structVis := structVis
  , structName := structName
  , fieldDecls := fields.map fun f => ⟨f.defaultPath, f.vis, f.name, f.ty⟩
  , defaultsVis := defaultsVis
  , defaultsName := defaultsName
  , providers := fields.map fun f => (f.name, f.default)
  , defaultImpl := fields.map fun f => (f.name, f.default) }

/-- Second macro arm (lines 85-103): identical to the first except the
derive attribute is `::serde::Serialize, ::serde::Deserialize, $($macro,)*`
(line 87), appending the caller's requested derive identifiers. -/
def serde_defaulted_struct_derives (structVis structName : String)
    (requested : List String) (defaultsVis defaultsName : String)
    (fields : List Field) : GeneratedCode :=
  { serde_defaulted_struct structVis structName defaultsVis defaultsName fields with
    derives := ["Serialize", "Deserialize"] ++ requested }

/-! ## Runtime semantics of the generated code -/

/-- Run the generated `Default::default` body: evaluate each field's spliced
default expression in declaration order, threading the heap. -/
def constructFields : List (String × Expr) → List Int → List (String × Value) × List Int
  | [], h => ([], h)
  | fe :: rest, h =>
    ((fe.1, (evalExpr fe.2 h).1) :: (constructFields rest (evalExpr fe.2 h).2).1,
     (constructFields rest (evalExpr fe.2 h).2).2)

/-- The generated all-defaults constructor `<StructName>::default()`. -/
def defaultConstruct (g : GeneratedCode) (h : List Int) :
    List (String × Value) × List Int :=
  constructFields g.defaultImpl h

/-- Call the generated defaults-module function for one field: it evaluates
that field's default expression afresh. -/
def callProvider (g : GeneratedCode) (field : String) (h : List Int) :
    Option (Value × List Int) :=
  (g.providers.lookup field).map fun e => evalExpr e h

/-- Observe a whole instance through the heap (the per-field contents a
serializer or an equality comparison sees). -/
def observeInst (h : List Int) (inst : List (String × Value)) :
    List (String × Value) :=
  inst.map fun p => (p.1, observe h p.2)

/-! ## Basic lemmas about evaluation, heaps and observation -/

theorem evalExpr_heap (e : Expr) (h : List Int) :
    ∃ ext, (evalExpr e h).2 = h ++ ext := by
  cases e with
  | intLit n => exact ⟨[], by simp [evalExpr]⟩
  | boolLit b => exact ⟨[], by simp [evalExpr]⟩
  | cellNew n => exact ⟨[n], rfl⟩

theorem evalExpr_refs (e : Expr) (h : List Int) (a : Nat)
    (ha : a ∈ valueRefs (evalExpr e h).1) :
    h.length ≤ a ∧ a < (evalExpr e h).2.length := by
  cases e with
  | intLit n => simp [evalExpr, valueRefs] at ha
  | boolLit b => simp [evalExpr, valueRefs] at ha
  | cellNew n =>
    simp [evalExpr, valueRefs] at ha
    subst ha
    simp [evalExpr]

theorem observe_append (h ext : List Int) (v : Value)
    (hv : ∀ a ∈ valueRefs v, a < h.length) :
    observe (h ++ ext) v = observe h v := by
  cases v with
  | vInt n => rfl
  | vBool b => rfl
  | vRef a =>
    have ha : a < h.length := hv a (by simp [valueRefs])
    simp [observe, List.getD_eq_getElem?_getD, List.getElem?_append_left ha]

theorem observe_set_ne (h : List Int) (a : Nat) (w : Int) (v : Value)
    (hv : ∀ b ∈ valueRefs v, b ≠ a) :
    observe (setCell h a w) v = observe h v := by
  cases v with
  | vInt n => rfl
  | vBool b => rfl
  | vRef b =>
    have hb : b ≠ a := hv b (by simp [valueRefs])
    simp [observe, setCell, List.getD_eq_getElem?_getD,
      List.getElem?_set_ne (Ne.symm hb)]

theorem evalExpr_observe (e : Expr) (h : List Int) :
    observe (evalExpr e h).2 (evalExpr e h).1 = denote e := by
  cases e with
  | intLit n => rfl
  | boolLit b => rfl
  | cellNew n =>
    simp [evalExpr, observe, denote, List.getD_eq_getElem?_getD,
      List.getElem?_concat_length]

theorem observeInst_append (h ext : List Int) (inst : List (String × Value))
    (hv : ∀ p ∈ inst, ∀ a ∈ valueRefs p.2, a < h.length) :
    observeInst (h ++ ext) inst = observeInst h inst := by
  unfold observeInst
  apply List.map_congr_left
  intro p hp
  rw [observe_append h ext p.2 (hv p hp)]

theorem observeInst_set_ne (h : List Int) (a : Nat) (w : Int)
    (inst : List (String × Value))
    (hv : ∀ p ∈ inst, ∀ b ∈ valueRefs p.2, b ≠ a) :
    observeInst (setCell h a w) inst = observeInst h inst := by
  unfold observeInst
  apply List.map_congr_left
  intro p hp
  rw [observe_set_ne h a w p.2 (hv p hp)]

/-! ## Lemmas about the generated constructor body -/

theorem constructFields_heap (fs : List (String × Expr)) (h : List Int) :
    ∃ ext, (constructFields fs h).2 = h ++ ext := by
  induction fs generalizing h with
  | nil => exact ⟨[], by simp [constructFields]⟩
  | cons fe rest ih =>
    obtain ⟨e1, he1⟩ := evalExpr_heap fe.2 h
    obtain ⟨e2, he2⟩ := ih (evalExpr fe.2 h).2
    refine ⟨e1 ++ e2, ?_⟩
    simp only [constructFields]
    rw [he2, he1, List.append_assoc]

theorem constructFields_length_le (fs : List (String × Expr)) (h : List Int) :
    h.length ≤ (constructFields fs h).2.length := by
  obtain ⟨ext, hext⟩ := constructFields_heap fs h
  simp [hext]

theorem constructFields_names (fs : List (String × Expr)) (h : List Int) :
    (constructFields fs h).1.map Prod.fst = fs.map Prod.fst := by
  induction fs generalizing h with
  | nil => rfl
  | cons fe rest ih => simp [constructFields, ih]

theorem constructFields_refs (fs : List (String × Expr)) (h : List Int)
    (p : String × Value) (hp : p ∈ (constructFields fs h).1)
    (a : Nat) (ha : a ∈ valueRefs p.2) :
    h.length ≤ a ∧ a < (constructFields fs h).2.length := by
  induction fs generalizing h with
  | nil => simp [constructFields] at hp
  | cons fe rest ih =>
    simp only [constructFields, List.mem_cons] at hp
    rcases hp with hp | hp
    · subst hp
      have := evalExpr_refs fe.2 h a ha
      have hle := constructFields_length_le rest (evalExpr fe.2 h).2
      simp only [constructFields]
      omega
    · have := ih (evalExpr fe.2 h).2 hp
      obtain ⟨ext, hext⟩ := evalExpr_heap fe.2 h
      have : h.length ≤ (evalExpr fe.2 h).2.length := by simp [hext]
      have h2 := ih (evalExpr fe.2 h).2 hp
      simp only [constructFields]
      omega

theorem constructFields_observe (fs : List (String × Expr)) (h : List Int) :
    observeInst (constructFields fs h).2 (constructFields fs h).1
      = fs.map fun fe => (fe.1, denote fe.2) := by
  induction fs generalizing h with
  | nil => rfl
  | cons fe rest ih =>
    obtain ⟨ext, hext⟩ := constructFields_heap rest (evalExpr fe.2 h).2
    have hobs : observe (constructFields rest (evalExpr fe.2 h).2).2
        (evalExpr fe.2 h).1 = denote fe.2 := by
      rw [hext, observe_append _ ext _
        (fun a ha => (evalExpr_refs fe.2 h a ha).2), evalExpr_observe]
    simp only [constructFields, observeInst, List.map_cons, List.map_map]
    refine congrArg₂ List.cons (by rw [hobs]) ?_
    have := ih (evalExpr fe.2 h).2
    simpa [observeInst] using this

/-! ## Association-list and string helper lemmas -/

theorem lookup_map_name {β : Type} (fields : List Field) (g : Field → β)
    (hnodup : (fields.map Field.name).Nodup) (f : Field) (hf : f ∈ fields) :
    (fields.map fun x => (x.name, g x)).lookup f.name = some (g f) := by
  induction fields with
  | nil => simp at hf
  | cons x rest ih =>
    simp only [List.map_cons, List.nodup_cons] at hnodup
    rcases List.mem_cons.mp hf with hf | hf
    · subst hf
      simp [List.lookup]
    · have hne : f.name ≠ x.name := by
        intro he
        exact hnodup.1 (he ▸ List.mem_map_of_mem Field.name hf)
      have hb : (f.name == x.name) = false := beq_eq_false_iff_ne.mpr hne
      simp only [List.map_cons, List.lookup, hb]
      exact ih hnodup.2 hf

theorem string_append_cancel (p a b : String) (hab : p ++ a = p ++ b) : a = b := by
  have hd := congrArg String.data hab
  simp only [String.data_append] at hd
  exact String.ext (List.append_cancel_left hd)

theorem lookup_filter_out (x : String) (l : List (String × Value)) :
    (l.filter fun p => !(p.1 == x)).lookup x = none := by
  induction l with
  | nil => rfl
  | cons p rest ih =>
    by_cases hp : p.1 = x
    · simp [List.filter, hp, ih]
    · have hb : (p.1 == x) = false := beq_eq_false_iff_ne.mpr hp
      have hb' : (x == p.1) = false := beq_eq_false_iff_ne.mpr (Ne.symm hp)
      simp [List.filter, hb, List.lookup, hb', ih]

theorem lookup_filter_ne (x k : String) (hk : k ≠ x) (l : List (String × Value)) :
    (l.filter fun p => !(p.1 == x)).lookup k = l.lookup k := by
  induction l with
  | nil => rfl
  | cons p rest ih =>
    by_cases hp : p.1 = x
    · have hb : (p.1 == x) = true := beq_iff_eq.mpr hp
      have hk' : (k == p.1) = false := beq_eq_false_iff_ne.mpr (hp ▸ hk)
      simp [List.filter, hb, List.lookup, hk', ih]
    · have hb : (p.1 == x) = false := beq_eq_false_iff_ne.mpr hp
      simp only [List.filter, hb, Bool.not_false, List.lookup]
      cases hkp : k == p.1 <;> simp [List.lookup, hkp, ih]

/-! ## Definition-time elaboration of the generated declarations

The macro itself performs no validation; a malformed schema is rejected when
the expansion is elaborated by the host compiler. -/

/-- First duplicated entry of a list of names, if any. -/
def firstDup : List String → Option String
  | [] => none
  | n :: rest => if n ∈ rest then some n else firstDup rest

/-- Modelled from the spec: the host language's definition-time elaboration
of the generated declarations is not part of src; per the spec's failure
model, a schema with a duplicate field name is rejected at definition time
with a descriptive error (the generated struct would declare the same field
twice and the generated defaults module would define two functions of the
same name), before any instance can be constructed. -/
def elabGenerated (g : GeneratedCode) : Except String GeneratedCode :=
  match firstDup (g.fieldDecls.map FieldDecl.name) with
  | some n => .error ("duplicate field name: " ++ n)
  | none => .ok g

theorem firstDup_of_not_nodup (l : List String) (hl : ¬ l.Nodup) :
    ∃ n, firstDup l = some n ∧ n ∈ l := by
  induction l with
  | nil => exact absurd List.nodup_nil hl
  | cons n rest ih =>
    by_cases hn : n ∈ rest
    · exact ⟨n, by simp [firstDup, hn], List.mem_cons_self n rest⟩
    · have hrest : ¬ rest.Nodup := by
        intro hr
        exact hl (List.nodup_cons.mpr ⟨hn, hr⟩)
      obtain ⟨m, hm1, hm2⟩ := ih hrest
      exact ⟨m, by simp [firstDup, hn, hm1], List.mem_cons_of_mem n hm2⟩

/-! ## The external serialization layer

The macro only emits the `#[serde(default = $default_path)]` attributes
(lines 70 and 89); the serializer itself is the external collaborator of
spec section 6, so its behaviour is modelled from the spec. -/

/-- Modelled from the spec: serde's derived `Serialize` is not part of src;
it writes each field of the instance, in declaration order, as that field's
observable content (a cell serializes as the integer it currently holds). -/
def serializeInst (h : List Int) (inst : List (String × Value)) :
    List (String × Value) :=
  observeInst h inst

/-- Resolve a `#[serde(default = path)]` attribute against the generated
defaults module: the path `defaultsName::field` names the module's function
for `field`, which returns that field's default expression. -/
def resolvePath (g : GeneratedCode) (path : String) : Option Expr :=
  g.providers.findSome? fun p =>
    if g.defaultsName ++ "::" ++ p.1 == path then some p.2 else none

/-- Modelled from the spec: decoding one stored value at a field's declared
type is serde's job, not src's; a cell field is reconstructed as a fresh
cell holding the stored integer. -/
def deserValue : Ty → Value → List Int → Except String (Value × List Int)
  | .i32, .vInt n, h => .ok (.vInt n, h)
  | .bool, .vBool b, h => .ok (.vBool b, h)
  | .cell, .vInt n, h => .ok (.vRef h.length, h ++ [n])
  | _, _, _ => .error "type mismatch"

/-- Modelled from the spec: serde's derived `Deserialize` is not part of
src; it reads each declared field from the input in declaration order. A
field present in the input is decoded at its declared type; a missing field
is filled by calling the zero-argument function named by that field's
`#[serde(default = ...)]` attribute, which is the forward-compatibility
mechanism the macro exists to wire up. -/
def deserializeFields (g : GeneratedCode) :
    List FieldDecl → List (String × Value) → List Int →
    Except String (List (String × Value) × List Int)
  | [], _, h => .ok ([], h)
  | fd :: rest, data, h =>
    match data.lookup fd.name with
    | some v =>
      match deserValue fd.ty v h with
      | .ok p =>
        (deserializeFields g rest data p.2).map fun r => ((fd.name, p.1) :: r.1, r.2)
      | .error e => .error e
    | none =>
      match resolvePath g fd.serdeDefault with
      | some e =>
        (deserializeFields g rest data (evalExpr e h).2).map fun r =>
          ((fd.name, (evalExpr e h).1) :: r.1, r.2)
      | none => .error ("cannot resolve default function " ++ fd.serdeDefault)

/-- Deserialize a whole record of the generated type. -/
def deserializeInst (g : GeneratedCode) (data : List (String × Value))
    (h : List Int) : Except String (List (String × Value) × List Int) :=
  deserializeFields g g.fieldDecls data h

/-! ## Capabilities -/

/-- The structural capability kinds of spec section 4.1 item 4 — equality
comparison, duplication/copy, ordering, debug formatting — as Rust derive
identifiers. -/
def structuralCapabilities : List String :=
  ["PartialEq", "Eq", "Clone", "Copy", "PartialOrd", "Ord", "Debug"]

/-- Equality on instances of the generated type: available only when the
derive list carries `PartialEq`; the derived comparison compares the fields'
observable contents (a cell compares by its current content). -/
def tryEq (g : GeneratedCode) (h : List Int)
    (i1 i2 : List (String × Value)) : Option Bool :=
  if "PartialEq" ∈ g.derives then
    some (decide (observeInst h i1 = observeInst h i2))
  else
    none

/-! ## The doc-example schema (src/src/lib.rs lines 37-46) -/

def settingsFields : List Field :=
  [⟨"pub", "thing", .i32, .intLit 1, "settings_defaults::thing"⟩,
   ⟨"pub", "foo", .bool, .boolLit false, "settings_defaults::foo"⟩]

def Settings : GeneratedCode :=
  serde_defaulted_struct "pub" "Settings" "" "settings_defaults" settingsFields

/-- A schema with a duplicated field name (malformed). -/
def dupFields : List Field :=
  [⟨"pub", "thing", .i32, .intLit 1, "dup_defaults::thing"⟩,
   ⟨"pub", "thing", .i32, .intLit 2, "dup_defaults::thing"⟩]

/-- A schema whose single field defaults to a fresh interior-mutable cell. -/
def cellFields : List Field :=
  [⟨"pub", "counter", .cell, .cellNew 5, "cell_defaults::counter"⟩]

def CellSettings : GeneratedCode :=
  serde_defaulted_struct "pub" "CellSettings" "" "cell_defaults" cellFields

/-! ## Claim theorems -/

/-- C10: the `tr!` macro is a ternary: `tr!(c, a, b)` yields `a` when `c` is
true and `b` when `c` is false; the multi-arm chain form yields the
expression paired with the first condition that is true, and the final
expression when no condition is true. -/
theorem tr_ternary {α : Type} (a b d : α) (arms : List (Bool × α)) :
    tr true a b = a ∧ tr false a b = b ∧
    trChain arms d = ((arms.find? fun p => p.1).map Prod.snd).getD d := by
  refine ⟨by simp [tr], by simp [tr], ?_⟩
  induction arms with
  | nil => rfl
  | cons p rest ih =>
    obtain ⟨c, a2⟩ := p
    cases c <;> simp [trChain, List.find?, ih]

/-- C9: both macro arms always put `Serialize` and `Deserialize` on the
generated type's derive list, for every schema and every requested extra
derive list, including the empty one. -/
theorem serde_derives_always_present (sv sn dv dn : String)
    (requested : List String) (fields : List Field) :
    ("Serialize" ∈ (serde_defaulted_struct sv sn dv dn fields).derives ∧
     "Deserialize" ∈ (serde_defaulted_struct sv sn dv dn fields).derives) ∧
    ("Serialize" ∈ (serde_defaulted_struct_derives sv sn requested dv dn fields).derives ∧
     "Deserialize" ∈ (serde_defaulted_struct_derives sv sn requested dv dn fields).derives) := by
  simp [serde_defaulted_struct, serde_defaulted_struct_derives]

/-- C8: once a type is generated, construction cannot fail: for every
generated code and every heap, the all-defaults constructor totally yields a
complete instance with one value per declared initializer, names preserved
in order. -/
theorem construction_cannot_fail (g : GeneratedCode) (h : List Int) :
    (defaultConstruct g h).1.map Prod.fst = g.defaultImpl.map Prod.fst ∧
    (defaultConstruct g h).1.length = g.defaultImpl.length := by
  have hn := constructFields_names g.defaultImpl h
  refine ⟨hn, ?_⟩
  have := congrArg List.length hn
  simpa using this

/-- C4: the generator attaches exactly the requested set of structural
capabilities, no more, no fewer: restricted to the capability kinds
(equality, duplication/copy, ordering, debug formatting) the second arm's
derive list is exactly the requested list, and the first arm attaches
none. -/
theorem capabilities_exactly_requested (sv sn dv dn : String)
    (requested : List String) (fields : List Field)
    (hreq : ∀ m ∈ requested, m ∈ structuralCapabilities) :
    ((serde_defaulted_struct_derives sv sn requested dv dn fields).derives.filter
        (fun d => decide (d ∈ structuralCapabilities)) = requested) ∧
    ((serde_defaulted_struct sv sn dv dn fields).derives.filter
        (fun d => decide (d ∈ structuralCapabilities)) = []) := by
  constructor
  · simp only [serde_defaulted_struct_derives, List.filter_append]
    have h1 : (["Serialize", "Deserialize"].filter
        fun d => decide (d ∈ structuralCapabilities)) = [] := by decide
    rw [h1, List.nil_append]
    exact List.filter_eq_self.mpr fun m hm => decide_eq_true (hreq m hm)
  · have hd : (serde_defaulted_struct sv sn dv dn fields).derives
        = ["Serialize", "Deserialize"] := rfl
    rw [hd]
    decide

/-- Witness for `capabilities_exactly_requested` at the doc-example derive
list `(PartialEq, Clone)`. -/
theorem capabilities_exactly_requested_witness :
    (∀ m ∈ ["PartialEq", "Clone"], m ∈ structuralCapabilities) ∧
    (((serde_defaulted_struct_derives "pub" "Settings" ["PartialEq", "Clone"]
          "" "settings_defaults" settingsFields).derives.filter
        (fun d => decide (d ∈ structuralCapabilities)) = ["PartialEq", "Clone"]) ∧
     ((serde_defaulted_struct "pub" "Settings" "" "settings_defaults"
          settingsFields).derives.filter
        (fun d => decide (d ∈ structuralCapabilities)) = [])) :=
  ⟨by decide, capabilities_exactly_requested "pub" "Settings" "" "settings_defaults"
    ["PartialEq", "Clone"] settingsFields (by decide)⟩

/-- C1: the all-defaults constructor takes no field arguments and yields an
instance in which each field observes as the independently evaluated
denotation of that field's default expression; on the doc-example schema the
defaulted instance has thing = 1 and foo = false. -/
theorem default_constructor_correct (sv sn dv dn : String)
    (fields : List Field) (h : List Int) :
    (observeInst (defaultConstruct (serde_defaulted_struct sv sn dv dn fields) h).2
        (defaultConstruct (serde_defaulted_struct sv sn dv dn fields) h).1
      = fields.map fun f => (f.name, denote f.default)) ∧
    (defaultConstruct Settings []).1
      = [("thing", .vInt 1), ("foo", .vBool false)] := by
  constructor
  · rw [defaultConstruct, constructFields_observe]
    simp [serde_defaulted_struct]
  · decide

/-- C5: a schema with a duplicate field name is rejected at definition time
with a descriptive error naming the duplicated field, while record
construction is total — it yields a complete instance for every schema and
heap — so the failure can never move to construction time. -/
theorem duplicate_field_fails_at_definition (sv sn dv dn : String)
    (fields : List Field) (hdup : ¬ (fields.map Field.name).Nodup) :
    (∃ n, elabGenerated (serde_defaulted_struct sv sn dv dn fields)
          = .error ("duplicate field name: " ++ n) ∧ n ∈ fields.map Field.name) ∧
    ∀ h : List Int,
      (defaultConstruct (serde_defaulted_struct sv sn dv dn fields) h).1.length
        = fields.length := by
  have hnames : (serde_defaulted_struct sv sn dv dn fields).fieldDecls.map FieldDecl.name
      = fields.map Field.name := by
    simp [serde_defaulted_struct]
  constructor
  · obtain ⟨n, hn1, hn2⟩ := firstDup_of_not_nodup
      ((serde_defaulted_struct sv sn dv dn fields).fieldDecls.map FieldDecl.name)
      (by rw [hnames]; exact hdup)
    exact ⟨n, by simp [elabGenerated, hn1], by rw [← hnames]; exact hn2⟩
  · intro h
    have hn := constructFields_names
      (serde_defaulted_struct sv sn dv dn fields).defaultImpl h
    have hlen := congrArg List.length hn
    simpa [serde_defaulted_struct, defaultConstruct] using hlen

/-- Witness for `duplicate_field_fails_at_definition` at a concrete schema
declaring `thing` twice. -/
theorem duplicate_field_fails_at_definition_witness :
    (¬ (dupFields.map Field.name).Nodup) ∧
    ((∃ n, elabGenerated (serde_defaulted_struct "pub" "Dup" "" "dup_defaults" dupFields)
          = .error ("duplicate field name: " ++ n) ∧ n ∈ dupFields.map Field.name) ∧
     ∀ h : List Int,
       (defaultConstruct (serde_defaulted_struct "pub" "Dup" "" "dup_defaults" dupFields) h).1.length
         = dupFields.length) :=
  ⟨by decide,
   duplicate_field_fails_at_definition "pub" "Dup" "" "dup_defaults" dupFields (by decide)⟩

/-- Observing the first of two successive default constructions under the
final heap agrees with observing the second: each call re-evaluates the same
default expressions, whose observable contents coincide. -/
theorem successive_defaults_observe_eq (g : GeneratedCode) (h : List Int) :
    observeInst (defaultConstruct g (defaultConstruct g h).2).2
        (defaultConstruct g h).1
      = observeInst (defaultConstruct g (defaultConstruct g h).2).2
        (defaultConstruct g (defaultConstruct g h).2).1 := by
  simp only [defaultConstruct]
  obtain ⟨ext, hext⟩ :=
    constructFields_heap g.defaultImpl (constructFields g.defaultImpl h).2
  have l1 : observeInst
      (constructFields g.defaultImpl (constructFields g.defaultImpl h).2).2
      (constructFields g.defaultImpl h).1
      = g.defaultImpl.map fun fe => (fe.1, denote fe.2) := by
    rw [hext, observeInst_append _ ext _
      (fun p hp a ha => (constructFields_refs g.defaultImpl h p hp a ha).2)]
    exact constructFields_observe g.defaultImpl h
  rw [l1, constructFields_observe]

/-- C7: when the requested capability set is exactly equality, comparing two
successively default-constructed instances is available and yields true;
when no capability set is requested (first arm), equality on the generated
type is not available. -/
theorem equality_capability (sv sn dv dn : String) (fields : List Field)
    (g gn ge : GeneratedCode) (h h' h'' : List Int)
    (i1 i2 i3 i4 : List (String × Value))
    (hg : g = serde_defaulted_struct_derives sv sn ["PartialEq"] dv dn fields)
    (hgn : gn = serde_defaulted_struct sv sn dv dn fields)
    (hge : ge = serde_defaulted_struct_derives sv sn [] dv dn fields) :
    tryEq g (defaultConstruct g (defaultConstruct g h).2).2
        (defaultConstruct g h).1
        (defaultConstruct g (defaultConstruct g h).2).1 = some true ∧
    tryEq gn h' i1 i2 = none ∧
    tryEq ge h'' i3 i4 = none := by
  refine ⟨?_, ?_, ?_⟩
  · have hmem : "PartialEq" ∈ g.derives := by
      subst hg; simp [serde_defaulted_struct_derives]
    rw [tryEq, if_pos hmem, successive_defaults_observe_eq]
    simp
  · have hmem : "PartialEq" ∉ gn.derives := by
      subst hgn
      have hd : (serde_defaulted_struct sv sn dv dn fields).derives
          = ["Serialize", "Deserialize"] := rfl
      rw [hd]
      decide
    rw [tryEq, if_neg hmem]
  · have hmem : "PartialEq" ∉ ge.derives := by
      subst hge
      have hd : (serde_defaulted_struct_derives sv sn [] dv dn fields).derives
          = ["Serialize", "Deserialize"] := rfl
      rw [hd]
      decide
    rw [tryEq, if_neg hmem]

/-- Witness for `equality_capability` on the doc-example schema. -/
theorem equality_capability_witness :
    (serde_defaulted_struct_derives "pub" "Settings" ["PartialEq"] ""
        "settings_defaults" settingsFields
      = serde_defaulted_struct_derives "pub" "Settings" ["PartialEq"] ""
        "settings_defaults" settingsFields) ∧
    (Settings = serde_defaulted_struct "pub" "Settings" "" "settings_defaults"
        settingsFields) ∧
    (serde_defaulted_struct_derives "pub" "Settings" [] "" "settings_defaults"
        settingsFields
      = serde_defaulted_struct_derives "pub" "Settings" [] "" "settings_defaults"
        settingsFields) ∧
    (tryEq (serde_defaulted_struct_derives "pub" "Settings" ["PartialEq"] ""
          "settings_defaults" settingsFields)
        (defaultConstruct (serde_defaulted_struct_derives "pub" "Settings" ["PartialEq"] ""
            "settings_defaults" settingsFields)
          (defaultConstruct (serde_defaulted_struct_derives "pub" "Settings" ["PartialEq"] ""
              "settings_defaults" settingsFields) []).2).2
        (defaultConstruct (serde_defaulted_struct_derives "pub" "Settings" ["PartialEq"] ""
            "settings_defaults" settingsFields) []).1
        (defaultConstruct (serde_defaulted_struct_derives "pub" "Settings" ["PartialEq"] ""
            "settings_defaults" settingsFields)
          (defaultConstruct (serde_defaulted_struct_derives "pub" "Settings" ["PartialEq"] ""
              "settings_defaults" settingsFields) []).2).1 = some true ∧
     tryEq Settings [] [] [] = none ∧
     tryEq (serde_defaulted_struct_derives "pub" "Settings" [] "" "settings_defaults"
        settingsFields) [] [] [] = none) :=
  ⟨rfl, rfl, rfl,
   equality_capability "pub" "Settings" "" "settings_defaults" settingsFields
     _ Settings _ [] [] [] [] [] [] [] rfl rfl rfl⟩

/-- C2: for every field of a generated struct, the defaults-module function
returns (observably) the very value that field holds in a freshly
default-constructed instance; concretely the provider for thing returns 1
and the provider for foo returns false. -/
theorem provider_matches_default (sv sn dv dn : String) (fields : List Field)
    (h hp : List Int) (f : Field)
    (hnodup : (fields.map Field.name).Nodup) (hf : f ∈ fields) :
    (∃ v h', callProvider (serde_defaulted_struct sv sn dv dn fields) f.name hp
          = some (v, h') ∧ observe h' v = denote f.default) ∧
    (observeInst (defaultConstruct (serde_defaulted_struct sv sn dv dn fields) h).2
        (defaultConstruct (serde_defaulted_struct sv sn dv dn fields) h).1).lookup f.name
      = some (denote f.default) ∧
    callProvider Settings "thing" [] = some (.vInt 1, []) ∧
    callProvider Settings "foo" [] = some (.vBool false, []) := by
  refine ⟨?_, ?_, by decide, by decide⟩
  · have hl : (serde_defaulted_struct sv sn dv dn fields).providers.lookup f.name
        = some f.default := by
      simp only [serde_defaulted_struct]
      exact lookup_map_name fields Field.default hnodup f hf
    refine ⟨(evalExpr f.default hp).1, (evalExpr f.default hp).2, ?_, ?_⟩
    · simp [callProvider, hl]
    · exact evalExpr_observe f.default hp
  · rw [defaultConstruct, constructFields_observe]
    have hmap : ((serde_defaulted_struct sv sn dv dn fields).defaultImpl.map
        fun fe => (fe.1, denote fe.2)) = fields.map fun x => (x.name, denote x.default) := by
      simp [serde_defaulted_struct]
    rw [hmap]
    exact lookup_map_name fields (fun x => denote x.default) hnodup f hf

/-- Witness for `provider_matches_default` at the doc-example field
`thing`. -/
theorem provider_matches_default_witness :
    ((settingsFields.map Field.name).Nodup ∧
     (⟨"pub", "thing", .i32, .intLit 1, "settings_defaults::thing"⟩ : Field) ∈ settingsFields) ∧
    ((∃ v h', callProvider (serde_defaulted_struct "pub" "Settings" "" "settings_defaults" settingsFields)
          (Field.name ⟨"pub", "thing", .i32, .intLit 1, "settings_defaults::thing"⟩) []
          = some (v, h') ∧
        observe h' v = denote (Field.default ⟨"pub", "thing", .i32, .intLit 1, "settings_defaults::thing"⟩)) ∧
     (observeInst (defaultConstruct (serde_defaulted_struct "pub" "Settings" "" "settings_defaults" settingsFields) []).2
        (defaultConstruct (serde_defaulted_struct "pub" "Settings" "" "settings_defaults" settingsFields) []).1).lookup
          (Field.name ⟨"pub", "thing", .i32, .intLit 1, "settings_defaults::thing"⟩)
       = some (denote (Field.default ⟨"pub", "thing", .i32, .intLit 1, "settings_defaults::thing"⟩)) ∧
     callProvider Settings "thing" [] = some (.vInt 1, []) ∧
     callProvider Settings "foo" [] = some (.vBool false, [])) :=
  ⟨⟨by decide, by decide⟩,
   provider_matches_default "pub" "Settings" "" "settings_defaults" settingsFields
     [] [] ⟨"pub", "thing", .i32, .intLit 1, "settings_defaults::thing"⟩
     (by decide) (by decide)⟩

/-- Decoding the serialized observable content of a default expression at
that expression's type succeeds, extends the heap, and observes back to the
same content. -/
theorem deserValue_denote (e : Expr) (h : List Int) :
    ∃ w ext, deserValue (exprTy e) (denote e) h = .ok (w, h ++ ext) ∧
      observe (h ++ ext) w = denote e ∧
      ∀ a ∈ valueRefs w, a < (h ++ ext).length := by
  cases e with
  | intLit n =>
    exact ⟨.vInt n, [], by simp [deserValue, exprTy, denote], rfl,
      by simp [valueRefs]⟩
  | boolLit b =>
    exact ⟨.vBool b, [], by simp [deserValue, exprTy, denote], rfl,
      by simp [valueRefs]⟩
  | cellNew n =>
    refine ⟨.vRef h.length, [n], by simp [deserValue, exprTy, denote], ?_, ?_⟩
    · simp [observe, denote, List.getD_eq_getElem?_getD, List.getElem?_concat_length]
    · simp [valueRefs]

/-- Resolving the canonical attribute path `defaultsName::field` against the
generated defaults module yields that field's default expression, provided
field names are unique. -/
theorem findSome?_canonical_path (dn : String) (fields : List Field)
    (hnodup : (fields.map Field.name).Nodup) (f : Field) (hf : f ∈ fields) :
    ((fields.map fun x => (x.name, x.default)).findSome? fun p =>
        if dn ++ "::" ++ p.1 == dn ++ "::" ++ f.name then some p.2 else none)
      = some f.default := by
  induction fields with
  | nil => simp at hf
  | cons x rest ih =>
    simp only [List.map_cons, List.nodup_cons] at hnodup
    rw [List.map_cons, List.findSome?_cons]
    rcases List.mem_cons.mp hf with hfx | hfx
    · subst hfx
      simp
    · have hne : x.name ≠ f.name := by
        intro he
        exact hnodup.1 (he ▸ List.mem_map_of_mem Field.name hfx)
      have hpath : dn ++ "::" ++ x.name ≠ dn ++ "::" ++ f.name := by
        intro he
        exact hne (string_append_cancel (dn ++ "::") x.name f.name he)
      have hb : (dn ++ "::" ++ x.name == dn ++ "::" ++ f.name) = false :=
        beq_eq_false_iff_ne.mpr hpath
      simp only [hb, Bool.false_eq_true, if_false]
      exact ih hnodup.2 hfx

theorem resolvePath_canonical (sv sn dv dn : String) (fields : List Field)
    (hnodup : (fields.map Field.name).Nodup) (f : Field) (hf : f ∈ fields) :
    resolvePath (serde_defaulted_struct sv sn dv dn fields) (dn ++ "::" ++ f.name)
      = some f.default := by
  have hdn : (serde_defaulted_struct sv sn dv dn fields).defaultsName = dn := rfl
  have hpr : (serde_defaulted_struct sv sn dv dn fields).providers
      = fields.map fun x => (x.name, x.default) := rfl
  rw [resolvePath, hdn, hpr]
  exact findSome?_canonical_path dn fields hnodup f hf

/-- Deserializing field declarations whose input either carries the field's
default content or omits the field while the attribute path resolves to its
default expression succeeds, extends the heap, and observes back to the
per-field default contents. -/
theorem deserializeFields_roundtrip (g : GeneratedCode) (fs : List Field)
    (data : List (String × Value)) (h : List Int)
    (hdata : ∀ f ∈ fs,
        data.lookup f.name = some (denote f.default) ∨
        (data.lookup f.name = none ∧ resolvePath g f.defaultPath = some f.default))
    (hty : ∀ f ∈ fs, exprTy f.default = f.ty) :
    ∃ i2 ext,
      deserializeFields g (fs.map fun f => ⟨f.defaultPath, f.vis, f.name, f.ty⟩) data h
        = .ok (i2, h ++ ext) ∧
      observeInst (h ++ ext) i2 = fs.map fun f => (f.name, denote f.default) := by
  induction fs generalizing h with
  | nil => exact ⟨[], [], by simp [deserializeFields], rfl⟩
  | cons f rest ih =>
    have hrest : ∀ f' ∈ rest,
        data.lookup f'.name = some (denote f'.default) ∨
        (data.lookup f'.name = none ∧ resolvePath g f'.defaultPath = some f'.default) :=
      fun f' hf' => hdata f' (List.mem_cons_of_mem f hf')
    have htyrest : ∀ f' ∈ rest, exprTy f'.default = f'.ty :=
      fun f' hf' => hty f' (List.mem_cons_of_mem f hf')
    rcases hdata f (List.mem_cons_self f rest) with hcase | hcase
    · obtain ⟨w, ext1, hok, hobs, hrefs⟩ := deserValue_denote f.default h
      rw [hty f (List.mem_cons_self f rest)] at hok
      obtain ⟨i2, ext2, hok2, hobs2⟩ := ih (h ++ ext1) hrest htyrest
      refine ⟨(f.name, w) :: i2, ext1 ++ ext2, ?_, ?_⟩
      · simp only [List.map_cons, deserializeFields, hcase, hok, hok2, Except.map]
        rw [List.append_assoc]
      · simp only [observeInst, List.map_cons, ← List.append_assoc]
        refine congrArg₂ List.cons ?_ ?_
        · rw [observe_append (h ++ ext1) ext2 w (fun a ha => hrefs a ha), hobs]
        · simpa [observeInst] using hobs2
    · obtain ⟨ext1, hext1⟩ := evalExpr_heap f.default h
      obtain ⟨i2, ext2, hok2, hobs2⟩ := ih (evalExpr f.default h).2 hrest htyrest
      refine ⟨(f.name, (evalExpr f.default h).1) :: i2, ext1 ++ ext2, ?_, ?_⟩
      · simp only [List.map_cons, deserializeFields, hcase.1, hcase.2, hok2, Except.map]
        rw [hext1] at hok2 ⊢
        simp only [List.append_assoc]
      · have hfinal : ((evalExpr f.default h).2 ++ ext2) = h ++ (ext1 ++ ext2) := by
          rw [hext1, List.append_assoc]
        rw [← hfinal]
        simp only [observeInst, List.map_cons]
        refine congrArg₂ List.cons ?_ ?_
        · rw [observe_append (evalExpr f.default h).2 ext2 _
            (fun a ha => (evalExpr_refs f.default h a ha).2), evalExpr_observe]
        · simpa [observeInst] using hobs2

/-- C3: serializing a default-constructed instance and deserializing the
serialized form with one field removed succeeds — the missing field is
reconstructed through its default provider — and the result observes equal
to the original instance. -/
theorem forward_compatible_roundtrip (sv sn dv dn : String)
    (fields : List Field) (h : List Int) (x : String)
    (hnodup : (fields.map Field.name).Nodup)
    (hpaths : ∀ f ∈ fields, f.defaultPath = dn ++ "::" ++ f.name)
    (hty : ∀ f ∈ fields, exprTy f.default = f.ty) :
    ∃ i2 h2,
      deserializeInst (serde_defaulted_struct sv sn dv dn fields)
          ((serializeInst
              (defaultConstruct (serde_defaulted_struct sv sn dv dn fields) h).2
              (defaultConstruct (serde_defaulted_struct sv sn dv dn fields) h).1).filter
            fun p => !(p.1 == x))
          (defaultConstruct (serde_defaulted_struct sv sn dv dn fields) h).2
        = .ok (i2, h2) ∧
      observeInst h2 i2
        = serializeInst
            (defaultConstruct (serde_defaulted_struct sv sn dv dn fields) h).2
            (defaultConstruct (serde_defaulted_struct sv sn dv dn fields) h).1 := by
  have hser : serializeInst
      (defaultConstruct (serde_defaulted_struct sv sn dv dn fields) h).2
      (defaultConstruct (serde_defaulted_struct sv sn dv dn fields) h).1
      = fields.map fun f => (f.name, denote f.default) := by
    rw [serializeInst, defaultConstruct, constructFields_observe]
    simp [serde_defaulted_struct]
  have hdecls : (serde_defaulted_struct sv sn dv dn fields).fieldDecls
      = fields.map fun f => ⟨f.defaultPath, f.vis, f.name, f.ty⟩ := rfl
  have hdata : ∀ f ∈ fields,
      ((fields.map fun f' => (f'.name, denote f'.default)).filter
          fun p => !(p.1 == x)).lookup f.name = some (denote f.default) ∨
      (((fields.map fun f' => (f'.name, denote f'.default)).filter
          fun p => !(p.1 == x)).lookup f.name = none ∧
        resolvePath (serde_defaulted_struct sv sn dv dn fields) f.defaultPath
          = some f.default) := by
    intro f hf
    by_cases hx : f.name = x
    · refine Or.inr ⟨?_, ?_⟩
      · rw [hx]
        exact lookup_filter_out x _
      · rw [hpaths f hf]
        exact resolvePath_canonical sv sn dv dn fields hnodup f hf
    · refine Or.inl ?_
      rw [lookup_filter_ne x f.name hx]
      exact lookup_map_name fields (fun f' => denote f'.default) hnodup f hf
  obtain ⟨i2, ext, hok, hobs⟩ := deserializeFields_roundtrip
    (serde_defaulted_struct sv sn dv dn fields) fields
    ((fields.map fun f' => (f'.name, denote f'.default)).filter fun p => !(p.1 == x))
    (defaultConstruct (serde_defaulted_struct sv sn dv dn fields) h).2 hdata hty
  refine ⟨i2, (defaultConstruct (serde_defaulted_struct sv sn dv dn fields) h).2 ++ ext, ?_, ?_⟩
  · rw [deserializeInst, hdecls, hser]
    exact hok
  · rw [hobs, hser]

/-- Witness for `forward_compatible_roundtrip` on the doc-example schema
with the field `foo` removed from the serialized form. -/
theorem forward_compatible_roundtrip_witness :
    ((settingsFields.map Field.name).Nodup ∧
     (∀ f ∈ settingsFields, f.defaultPath = "settings_defaults" ++ "::" ++ f.name) ∧
     (∀ f ∈ settingsFields, exprTy f.default = f.ty)) ∧
    (∃ i2 h2,
      deserializeInst (serde_defaulted_struct "pub" "Settings" "" "settings_defaults" settingsFields)
          ((serializeInst
              (defaultConstruct (serde_defaulted_struct "pub" "Settings" "" "settings_defaults" settingsFields) []).2
              (defaultConstruct (serde_defaulted_struct "pub" "Settings" "" "settings_defaults" settingsFields) []).1).filter
            fun p => !(p.1 == "foo"))
          (defaultConstruct (serde_defaulted_struct "pub" "Settings" "" "settings_defaults" settingsFields) []).2
        = .ok (i2, h2) ∧
      observeInst h2 i2
        = serializeInst
            (defaultConstruct (serde_defaulted_struct "pub" "Settings" "" "settings_defaults" settingsFields) []).2
            (defaultConstruct (serde_defaulted_struct "pub" "Settings" "" "settings_defaults" settingsFields) []).1) :=
  ⟨⟨by decide, by decide, by decide⟩,
   forward_compatible_roundtrip "pub" "Settings" "" "settings_defaults"
     settingsFields [] "foo" (by decide) (by decide) (by decide)⟩

/-- C6: two successive default constructions share no mutable state: the
default expressions are re-evaluated fresh on the second call, so every cell
reachable from the first instance is distinct from every cell reachable from
the second, and writing through a cell of either instance leaves every
observable field of the other instance unchanged. -/
theorem successive_defaults_independent (g : GeneratedCode) (h : List Int)
    (p q : String × Value) (a b : Nat) (w : Int)
    (hp : p ∈ (defaultConstruct g h).1)
    (hq : q ∈ (defaultConstruct g (defaultConstruct g h).2).1)
    (ha : a ∈ valueRefs p.2) (hb : b ∈ valueRefs q.2) :
    a ≠ b ∧
    observeInst (setCell (defaultConstruct g (defaultConstruct g h).2).2 a w)
        (defaultConstruct g (defaultConstruct g h).2).1
      = observeInst (defaultConstruct g (defaultConstruct g h).2).2
        (defaultConstruct g (defaultConstruct g h).2).1 ∧
    observeInst (setCell (defaultConstruct g (defaultConstruct g h).2).2 b w)
        (defaultConstruct g h).1
      = observeInst (defaultConstruct g (defaultConstruct g h).2).2
        (defaultConstruct g h).1 := by
  simp only [defaultConstruct] at hp hq ⊢
  have h1 := constructFields_refs g.defaultImpl h p hp a ha
  have h2 := constructFields_refs g.defaultImpl
    (constructFields g.defaultImpl h).2 q hq b hb
  refine ⟨by omega, ?_, ?_⟩
  · apply observeInst_set_ne
    intro p' hp' b' hb'
    have := constructFields_refs g.defaultImpl
      (constructFields g.defaultImpl h).2 p' hp' b' hb'
    omega
  · apply observeInst_set_ne
    intro p' hp' a' ha'
    have := constructFields_refs g.defaultImpl h p' hp' a' ha'
    omega

/-- Witness for `successive_defaults_independent` on the cell schema: the
first construction yields a reference to cell 0, the second to cell 1. -/
theorem successive_defaults_independent_witness :
    ((("counter", Value.vRef 0) ∈ (defaultConstruct CellSettings []).1) ∧
     (("counter", Value.vRef 1) ∈
        (defaultConstruct CellSettings (defaultConstruct CellSettings []).2).1) ∧
     (0 ∈ valueRefs (Value.vRef 0)) ∧ (1 ∈ valueRefs (Value.vRef 1))) ∧
    ((0 : Nat) ≠ 1 ∧
     observeInst (setCell (defaultConstruct CellSettings (defaultConstruct CellSettings []).2).2 0 99)
        (defaultConstruct CellSettings (defaultConstruct CellSettings []).2).1
      = observeInst (defaultConstruct CellSettings (defaultConstruct CellSettings []).2).2
        (defaultConstruct CellSettings (defaultConstruct CellSettings []).2).1 ∧
     observeInst (setCell (defaultConstruct CellSettings (defaultConstruct CellSettings []).2).2 1 99)
        (defaultConstruct CellSettings []).1
      = observeInst (defaultConstruct CellSettings (defaultConstruct CellSettings []).2).2
        (defaultConstruct CellSettings []).1) :=
  ⟨⟨by decide, by decide, by decide, by decide⟩,
   successive_defaults_independent CellSettings []
     ("counter", Value.vRef 0) ("counter", Value.vRef 1) 0 1 99
     (by decide) (by decide) (by decide) (by decide)⟩

end Keystone
